import Mathlib

/-!
Verification development for the heuristic action-item extraction routine of
the note-taking service (`week2/app/services/extract.py`).

Python strings are modelled as `List Char`.  `str.strip`, `str.lower`,
`str.splitlines`, `str.removeprefix` and the two regular expressions used by
the source (`BULLET_PREFIX_PATTERN` and the sentence splitter) are embedded as
executable Lean functions.  The regex class `\d` is modelled as the full
Unicode decimal-digit category Nd, as CPython's `re` matches it.  `str.lower`
is modelled as the simple lowercase mapping on the Basic Latin and Latin-1
blocks and the identity elsewhere; this is observationally faithful for every
predicate of the program: the pattern characters (whitespace, `-`, `*`, `â`,
`€`, `¢`, digits, `.`), the keyword and checkbox tokens, and the imperative
starters are reached by Python's lowering only from Basic Latin or Latin-1
characters (the single non-Latin-1 codepoint lowering into ASCII, U+212A
KELVIN SIGN → `k`, occurs in no keyword, token or starter, and the
imperative tokenizer admits ASCII word characters only).
-/

abbrev Str := List Char

/-- Python whitespace characters (the set recognised by `str.isspace`, which
also governs `str.strip` and the regex class `\s`). -/
def pyWhitespaceChars : List Char :=
  [' ', '\t', '\n', '\r', '\x0b', '\x0c', '\x1c', '\x1d', '\x1e', '\x1f',
   '\x85', '\xa0', ' ', ' ', ' ', ' ', ' ', ' ',
   ' ', ' ', ' ', ' ', ' ', ' ', ' ',
   ' ', ' ', ' ', '　']

def pyIsSpace (c : Char) : Bool := decide (c ∈ pyWhitespaceChars)

/-- `str.strip()`: remove the maximal whitespace run from both ends. -/
def pyStrip (s : Str) : Str :=
  ((s.dropWhile pyIsSpace).reverse.dropWhile pyIsSpace).reverse

/-- The maximal runs of Unicode codepoints of category Nd (decimal digits),
the set matched by `\d` in CPython's `re` (generated from `unicodedata`,
Unicode 14). -/
def ndDigitRanges : List (Nat × Nat) :=
  [(48, 57), (1632, 1641), (1776, 1785), (1984, 1993), (2406, 2415),
   (2534, 2543), (2662, 2671), (2790, 2799), (2918, 2927), (3046, 3055),
   (3174, 3183), (3302, 3311), (3430, 3439), (3558, 3567), (3664, 3673),
   (3792, 3801), (3872, 3881), (4160, 4169), (4240, 4249), (6112, 6121),
   (6160, 6169), (6470, 6479), (6608, 6617), (6784, 6793), (6800, 6809),
   (6992, 7001), (7088, 7097), (7232, 7241), (7248, 7257), (42528, 42537),
   (43216, 43225), (43264, 43273), (43472, 43481), (43504, 43513),
   (43600, 43609), (44016, 44025), (65296, 65305), (66720, 66729),
   (68912, 68921), (69734, 69743), (69872, 69881), (69942, 69951),
   (70096, 70105), (70384, 70393), (70736, 70745), (70864, 70873),
   (71248, 71257), (71360, 71369), (71472, 71481), (71904, 71913),
   (72016, 72025), (72784, 72793), (73040, 73049), (73120, 73129),
   (92768, 92777), (92864, 92873), (93008, 93017), (120782, 120831),
   (123200, 123209), (123632, 123641), (125264, 125273), (130032, 130041)]

/-- The regex class `\d`: any Unicode decimal digit. -/
def pyIsDigit (c : Char) : Bool :=
  ndDigitRanges.any (fun p => p.1 ≤ c.toNat && c.toNat ≤ p.2)

/-- `str.lower()` on one character: the simple lowercase mapping on Basic
Latin (`A`-`Z`) and on the Latin-1 uppercase letters `À`-`Þ` except the
multiplication sign (each maps 32 codepoints up), the identity elsewhere.
See the header for why this scope is observationally faithful here. -/
def pyLowerChar (c : Char) : Char :=
  if 65 ≤ c.toNat ∧ c.toNat ≤ 90 then Char.ofNat (c.toNat + 32)
  else if 192 ≤ c.toNat ∧ c.toNat ≤ 222 ∧ c.toNat ≠ 215 then Char.ofNat (c.toNat + 32)
  else c

/-- `str.lower()`. -/
def pyLower (s : Str) : Str := s.map pyLowerChar

/-- Line-break characters recognised by `str.splitlines`. -/
def isLineBreak (c : Char) : Bool :=
  decide (c ∈ ['\n', '\r', '\x0b', '\x0c', '\x1c', '\x1d', '\x1e',
               '\x85', ' ', ' '])

/-- Worker for `str.splitlines`: `"\r\n"` counts as a single break and a
trailing break produces no empty final line. -/
def splitlinesGo : Str → Str → List Str
  | [], acc => if acc.isEmpty then [] else [acc.reverse]
  | '\r' :: '\n' :: rest, acc => acc.reverse :: splitlinesGo rest []
  | c :: rest, acc =>
      if isLineBreak c then acc.reverse :: splitlinesGo rest []
      else splitlinesGo rest (c :: acc)

def splitlines (s : Str) : List Str := splitlinesGo s []

/-- The character alternatives of `BULLET_PREFIX_PATTERN`.  The source file's
bytes for this class are `-`, `*`, and the three characters `â`, `€`, `¢`
(a UTF-8 mojibake of the bullet glyph, kept exactly as the interpreter reads
them). -/
def bulletClassChars : List Char := ['-', '*', 'â', '€', '¢']

/-- The `\s+` tail of the bullet regex: require at least one whitespace
character, consume the maximal run, return the remainder. -/
def matchWsPlus (s : Str) : Option Str :=
  match s with
  | c :: rest => if pyIsSpace c then some (rest.dropWhile pyIsSpace) else none
  | [] => none

/-- The `\.\s+` tail of the numbered alternative. -/
def matchDotWs (s : Str) : Option Str :=
  match s with
  | c :: rest => if c = '.' then matchWsPlus rest else none
  | [] => none

/-- The `\d+\.` alternative of the bullet regex followed by `\s+` (`\d` is
any Unicode decimal digit). -/
def matchDigitsDot (s : Str) : Option Str :=
  let ds := s.takeWhile pyIsDigit
  if ds.isEmpty then none
  else matchDotWs (s.drop ds.length)

/-- `BULLET_PREFIX_PATTERN.match`: `^\s*([-*â€¢]|\d+\.)\s+`.  Returns the
remainder of the string after the (greedy) match, or `none`. -/
def matchBulletRest (s : Str) : Option Str :=
  let s1 := s.dropWhile pyIsSpace
  let classBranch : Option Str :=
    match s1 with
    | c :: rest => if decide (c ∈ bulletClassChars) then matchWsPlus rest else none
    | [] => none
  match classBranch with
  | some r => some r
  | none => matchDigitsDot s1

/-- `BULLET_PREFIX_PATTERN.sub("", s)`: the pattern is anchored with `^`, so
at most the single leading match is removed. -/
def bulletSub (s : Str) : Str := (matchBulletRest s).getD s

def KEYWORD_PREFIXES : List Str := ["todo:", "action:", "next:"].map String.toList

/-- Python's `in` on strings: substring containment. -/
def listContainsSub (p s : Str) : Bool := s.tails.any (fun t => p.isPrefixOf t)

/-- `_is_action_line`: strip and lower-case the line, then test the bullet
regex, the keyword starters, and the checkbox substrings. -/
def is_action_line (line : Str) : Bool :=
  let stripped := pyLower (pyStrip line)
  if stripped.isEmpty then false
  else if (matchBulletRest stripped).isSome then true
  else if KEYWORD_PREFIXES.any (fun p => p.isPrefixOf stripped) then true
  else if listContainsSub "[ ]".toList stripped || listContainsSub "[todo]".toList stripped then true
  else false

/-- `str.removeprefix(p)`: drop `p` when it is a literal (case-sensitive)
leading substring, otherwise return the string unchanged. -/
def pyRemoveLeading (p s : Str) : Str :=
  if p.isPrefixOf s then s.drop p.length else s

/-- The cleaning steps applied to a classified line (original case):
bullet-regex removal, strip, literal `"[ ]"` removal, strip, literal
`"[todo]"` removal, strip. -/
def cleanLine (line : Str) : Str :=
  let c1 := pyStrip (bulletSub line)
  let c2 := pyStrip (pyRemoveLeading "[ ]".toList c1)
  pyStrip (pyRemoveLeading "[todo]".toList c2)

/-- The line-based pass of `extract_action_items`: strip each line, skip
blank ones, and clean every line classified actionable. -/
def linePass (text : Str) : List Str :=
  (splitlines text).filterMap (fun raw =>
    let line := pyStrip raw
    if line.isEmpty then none
    else if is_action_line line then some (cleanLine line) else none)

def sentEnd (c : Char) : Bool := c == '.' || c == '!' || c == '?'

def headSentEnd : Str → Bool
  | p :: _ => sentEnd p
  | [] => false

/-- Worker for `re.split(r"(?<=[.!?])\s+", text)`.  The accumulator holds the
current segment reversed; `none` means we are inside a separator whitespace
run (which began right after sentence-ending punctuation). -/
def splitSentencesGo : Str → Option Str → List Str
  | [], none => [[]]
  | [], some acc => [acc.reverse]
  | c :: rest, none =>
      if pyIsSpace c then splitSentencesGo rest none
      else splitSentencesGo rest (some [c])
  | c :: rest, some acc =>
      if pyIsSpace c && headSentEnd acc then
        acc.reverse :: splitSentencesGo rest none
      else splitSentencesGo rest (some (c :: acc))

def splitSentences (t : Str) : List Str := splitSentencesGo t (some [])

/-- Word characters of the `_looks_imperative` tokenizer: ASCII letters and
the apostrophe. -/
def isWordChar (c : Char) : Bool :=
  (decide ('A' ≤ c) && decide (c ≤ 'Z')) ||
  (decide ('a' ≤ c) && decide (c ≤ 'z')) ||
  c == '\''

/-- The first word found by `re.findall(r"[A-Za-z']+", s)`. -/
def firstWord (s : Str) : Str :=
  (s.dropWhile (fun c => !isWordChar c)).takeWhile isWordChar

def imperativeStarters : List Str :=
  ["add", "create", "implement", "fix", "update", "write", "check",
   "verify", "refactor", "document", "design", "investigate"].map String.toList

/-- `_looks_imperative`: the first alphabetic word, lower-cased, must belong
to the fixed starter set; a sentence with no word never qualifies. -/
def looks_imperative (s : Str) : Bool :=
  let w := firstWord s
  if w.isEmpty then false
  else decide (pyLower w ∈ imperativeStarters)

/-- The sentence-fallback pass: split the stripped input at sentence-ending
punctuation followed by whitespace, keep stripped non-empty segments that
look imperative. -/
def fallbackPass (text : Str) : List Str :=
  (splitSentences (pyStrip text)).filterMap (fun sentence =>
    let s := pyStrip sentence
    if s.isEmpty then none
    else if looks_imperative s then some s else none)

/-- The deduplication loop: `seen` is the set of lower-cased forms of the
items kept so far. -/
def dedupGo (seen : List Str) : List Str → List Str
  | [] => []
  | item :: rest =>
      let lowered := pyLower item
      if decide (lowered ∈ seen) then dedupGo seen rest
      else item :: dedupGo (lowered :: seen) rest

/-- `extract_action_items`: line pass, sentence fallback when the line pass
produced nothing, then order-preserving case-insensitive deduplication. -/
def extract_action_items (text : Str) : List Str :=
  let extracted := linePass text
  let extracted2 := if extracted.isEmpty then fallbackPass text else extracted
  dedupGo [] extracted2

/-- Deduplication as the specification words it: keep each item and remove
every later item whose lower-cased form equals the lower-cased form of an
earlier-kept item. -/
def keepFirstsSpec : List Str → List Str
  | [] => []
  | x :: rest => x :: keepFirstsSpec (rest.filter (fun y => !decide (pyLower y = pyLower x)))
termination_by l => l.length
decreasing_by
simp only [List.length_cons]
exact Nat.lt_succ_of_le (List.length_filter_le _ _)

/-- Begins with one of the glyphs followed by at least one whitespace
character. -/
def startsGlyphWs (glyphs : List Char) (s : Str) : Bool :=
  match s with
  | c :: rest => decide (c ∈ glyphs) && !(rest.takeWhile pyIsSpace).isEmpty
  | [] => false

/-- Begins with a period followed by at least one whitespace character. -/
def startsDotWs (s : Str) : Bool :=
  match s with
  | c :: rest => decide (c = '.') && !(rest.takeWhile pyIsSpace).isEmpty
  | [] => false

/-- Begins with a decimal number followed by a period and at least one
whitespace character. -/
def startsNumDotWs (s : Str) : Bool :=
  let ds := s.takeWhile pyIsDigit
  !ds.isEmpty && startsDotWs (s.drop ds.length)

/-- The bullet/numbering pattern as the specification words it: the line
begins (after leading whitespace) with one of the glyphs or with a decimal
number followed by a period, followed by at least one whitespace character. -/
def beginsBulletPattern (glyphs : List Char) (line : Str) : Bool :=
  startsGlyphWs glyphs (line.dropWhile pyIsSpace) ||
    startsNumDotWs (line.dropWhile pyIsSpace)

/-- The glyph alternatives named by the specification: `-`, `*`, and the
bullet glyph. -/
def specBulletGlyphs : List Char := ['-', '*', '•']

/-! ### The model-backed extraction path (`extract_action_items_llm`)

The Ollama `chat` call and `json.loads` are external collaborators; they are
modelled as oracle parameters (`Except` captures a raised exception).  JSON
values are modelled by `PyVal`. -/

/-- Python values produced by `json.loads`. -/
inductive PyVal where
  | pstr (s : Str)
  | pint (n : Int)
  | pbool (b : Bool)
  | pnull
  | plist (l : List PyVal)
  | pdict (fields : List (Str × PyVal))
deriving Repr

/-- Python truthiness (`if item`). -/
def pyTruthy : PyVal → Bool
  | .pstr s => !s.isEmpty
  | .pint n => decide (n ≠ 0)
  | .pbool b => b
  | .pnull => false
  | .plist l => !l.isEmpty
  | .pdict fs => !fs.isEmpty

/-- `sep.join`-style concatenation. -/
def joinWith (sep : Str) : List Str → Str
  | [] => []
  | [x] => x
  | x :: rest => x ++ sep ++ joinWith sep rest

/-- Python `repr` of a JSON value (containers render their elements with
`repr`, strings are quoted). -/
def pyRepr : PyVal → Str
  | .pstr s => '\'' :: (s ++ ['\''])
  | .pint n => (toString n).toList
  | .pbool true => "True".toList
  | .pbool false => "False".toList
  | .pnull => "None".toList
  | .plist l => '[' :: (joinWith ", ".toList (l.attach.map (fun x => pyRepr x.val)) ++ [']'])
  | .pdict fs => '\x7b' :: (joinWith ", ".toList (fs.attach.map
      (fun kv => ('\'' :: (kv.val.fst ++ ['\''])) ++ (": ".toList ++ pyRepr kv.val.snd))) ++ ['\x7d'])
decreasing_by
· have h1 := List.sizeOf_lt_of_mem x.property
  simp only [PyVal.plist.sizeOf_spec]
  omega
· have h1 := List.sizeOf_lt_of_mem kv.property
  rcases hkv : kv.val with ⟨a, b⟩
  rw [hkv] at h1
  simp only [PyVal.pdict.sizeOf_spec, Prod.mk.sizeOf_spec] at h1 ⊢
  omega

/-- Python `str` of a JSON value (`str` is the identity on strings and agrees
with `repr` elsewhere). -/
def pyToStr : PyVal → Str
  | .pstr s => s
  | v => pyRepr v

/-- `dict.get` (`json.loads` dictionaries; later duplicate keys win in
Python, duplicate keys are not produced by well-formed JSON objects). -/
def pyDictGet (fs : List (Str × PyVal)) (k : Str) : Option PyVal :=
  (fs.find? (fun kv => kv.fst == k)).map (fun kv => kv.snd)

/-- `str.split("\n")`: split on every newline, keeping empty segments. -/
def splitNlGo : Str → Str → List Str
  | [], acc => [acc.reverse]
  | c :: rest, acc =>
      if c = '\n' then acc.reverse :: splitNlGo rest []
      else splitNlGo rest (c :: acc)

def splitNl (s : Str) : List Str := splitNlGo s []

/-- `"\n".join`. -/
def joinNl (ls : List Str) : Str := joinWith ['\n'] ls

structure LlmMessage where
  content : Option Str

structure LlmResponse where
  message : LlmMessage

/-- The plain-text fallback of the LLM path: split the raw response content
on newlines, keep stripped lines that are non-empty and do not start with
`#`, and cap the result at 10 items. -/
def llmFallbackSplit (content : Str) : List Str :=
  (((splitNl content).filter
      (fun l => !(pyStrip l).isEmpty && !("#".toList.isPrefixOf (pyStrip l)))).map pyStrip).take 10

/-- `extract_action_items_llm`, with the `chat` call and `json.loads`
modelled as oracles.  `.error` models a raised exception.  A `none` message
content makes the attribute access raise, which the handler turns into `[]`;
a chat failure reaches the generic handler and yields `[]`; a parse failure
or a non-dict parse result yields the capped plain-text fallback. -/
def extract_action_items_llm (chatResult : Except Unit LlmResponse)
    (jsonLoads : Str → Except Unit PyVal) (text : Str) : List Str :=
  if (pyStrip text).isEmpty then []
  else
    match chatResult with
    | .error _ => []
    | .ok response =>
      match response.message.content with
      | none => []
      | some c0 =>
        let content := pyStrip c0
        let content2 :=
          if "```".toList.isPrefixOf content then
            joinNl ((splitNl content).filter (fun l => !("```".toList.isPrefixOf (pyStrip l))))
          else content
        match jsonLoads content2 with
        | .error _ => llmFallbackSplit c0
        | .ok (.pdict fs) =>
          match (pyDictGet fs "action_items".toList).getD (.plist []) with
          | .plist l => (l.filter pyTruthy).map (fun v => pyStrip (pyToStr v))
          | _ => []
        | .ok _ => llmFallbackSplit c0

/-! ## Helper lemmas -/

theorem dropWhile_idem (p : Char → Bool) (l : Str) :
    (l.dropWhile p).dropWhile p = l.dropWhile p := by
  induction l with
  | nil => rfl
  | cons c rest ih =>
    by_cases hc : p c
    · simp [List.dropWhile_cons, hc, ih]
    · simp [List.dropWhile_cons, hc]

theorem dropWhile_head_false {p : Char → Bool} {l : Str} {x : Char} {t : Str}
    (e : l.dropWhile p = x :: t) : p x = false := by
  induction l with
  | nil => simp at e
  | cons c rest ih =>
    by_cases hc : p c
    · rw [List.dropWhile_cons_of_pos hc] at e
      exact ih e
    · rw [List.dropWhile_cons_of_neg hc] at e
      cases e
      simpa using hc

theorem exists_append_dropWhile (p : Char → Bool) (l : Str) :
    ∃ w, w ++ l.dropWhile p = l := by
  induction l with
  | nil => exact ⟨[], rfl⟩
  | cons c rest ih =>
    by_cases hc : p c
    · obtain ⟨w, hw⟩ := ih
      exact ⟨c :: w, by simp [List.dropWhile_cons_of_pos hc, hw]⟩
    · exact ⟨[], by simp [List.dropWhile_cons_of_neg hc]⟩

theorem pyStrip_idem (s : Str) : pyStrip (pyStrip s) = pyStrip s := by
  unfold pyStrip
  have hA : (((s.dropWhile pyIsSpace).reverse.dropWhile pyIsSpace).reverse).dropWhile pyIsSpace
      = ((s.dropWhile pyIsSpace).reverse.dropWhile pyIsSpace).reverse := by
    cases hvr : ((s.dropWhile pyIsSpace).reverse.dropWhile pyIsSpace).reverse with
    | nil => simp
    | cons x xs =>
      obtain ⟨w, hw⟩ := exists_append_dropWhile pyIsSpace (s.dropWhile pyIsSpace).reverse
      have hu2 : s.dropWhile pyIsSpace = x :: (xs ++ w.reverse) := by
        have h3 := congrArg List.reverse hw
        rw [List.reverse_append, List.reverse_reverse] at h3
        rw [hvr] at h3
        simpa using h3.symm
      have hx : pyIsSpace x = false := dropWhile_head_false hu2
      exact List.dropWhile_cons_of_neg (by simp [hx])
  rw [hA, List.reverse_reverse, dropWhile_idem]

theorem pyStrip_eq_nil_iff {s : Str} :
    pyStrip s = [] ↔ ∀ c ∈ s, pyIsSpace c = true := by
  unfold pyStrip
  constructor
  · intro h
    have h1 : (s.dropWhile pyIsSpace).reverse.dropWhile pyIsSpace = [] := by
      have h2 := congrArg List.reverse h
      simpa using h2
    rcases e : s.dropWhile pyIsSpace with _ | ⟨x, xs⟩
    · exact fun c hc => List.dropWhile_eq_nil_iff.mp e c hc
    · exfalso
      have hx : pyIsSpace x = false := dropWhile_head_false e
      rw [e] at h1
      have hall := List.dropWhile_eq_nil_iff.mp h1
      have hx2 : pyIsSpace x = true := hall x (by simp)
      simp [hx] at hx2
  · intro h
    have h0 : s.dropWhile pyIsSpace = [] :=
      List.dropWhile_eq_nil_iff.mpr (fun x hx => h x hx)
    simp [h0]

theorem mem_of_mem_dedupGo {seen : List Str} {l : List Str} {x : Str}
    (h : x ∈ dedupGo seen l) : x ∈ l := by
  induction l generalizing seen with
  | nil => simp [dedupGo] at h
  | cons a rest ih =>
    by_cases hc : pyLower a ∈ seen
    · simp only [dedupGo, decide_eq_true hc, if_true] at h
      exact List.mem_cons_of_mem _ (ih h)
    · simp only [dedupGo, decide_eq_false hc, Bool.false_eq_true, if_false,
        List.mem_cons] at h
      rcases h with rfl | h2
      · exact List.mem_cons_self _ _
      · exact List.mem_cons_of_mem _ (ih h2)

theorem dedupGo_sublist (seen : List Str) (l : List Str) :
    (dedupGo seen l).Sublist l := by
  induction l generalizing seen with
  | nil => simp [dedupGo]
  | cons a rest ih =>
    by_cases hc : pyLower a ∈ seen
    · simp only [dedupGo, decide_eq_true hc, if_true]
      exact (ih seen).cons a
    · simp only [dedupGo, decide_eq_false hc, Bool.false_eq_true, if_false]
      exact (ih _).cons₂ a

theorem dedupGo_eq_keepFirsts (l : List Str) (seen : List Str) :
    dedupGo seen l = keepFirstsSpec (l.filter (fun y => !decide (pyLower y ∈ seen))) := by
  induction l generalizing seen with
  | nil => simp [dedupGo, keepFirstsSpec]
  | cons x rest ih =>
    by_cases h : pyLower x ∈ seen
    · simp only [dedupGo, decide_eq_true h, if_true, List.filter_cons,
        Bool.not_true, Bool.false_eq_true, if_false]
      exact ih seen
    · simp only [dedupGo, decide_eq_false h, Bool.false_eq_true, if_false,
        List.filter_cons, Bool.not_false, if_true]
      rw [keepFirstsSpec]
      congr 1
      rw [ih (pyLower x :: seen), List.filter_filter]
      congr 1
      apply List.filter_congr
      intro y _
      by_cases h1 : pyLower y = pyLower x <;> by_cases h2 : pyLower y ∈ seen <;>
        simp [h1, h2, List.mem_cons]

/-! ## Claim theorems -/

/-- C1 (counterexample): on the keyword-prefixed scenario input the output
is not the keyword-stripped list the claim states. -/
theorem extract_keyword_scenario_cex :
    extract_action_items
        "TODO: Review the code\nACTION: Deploy to production\nNEXT: Update documentation".toList
      ≠ ["Review the code".toList, "Deploy to production".toList,
         "Update documentation".toList] := by decide

/-- C1 (amended): keyword-prefixed lines are classified actionable but the
cleaner removes only bullet and bracket markers, so the keyword prefixes
remain in the output items. -/
theorem extract_keyword_scenario :
    extract_action_items
        "TODO: Review the code\nACTION: Deploy to production\nNEXT: Update documentation".toList
      = ["TODO: Review the code".toList, "ACTION: Deploy to production".toList,
         "NEXT: Update documentation".toList] := by decide

/-- C2 (counterexample): on the scenario input the claimed sentence is not
in the output — its first alphabetic word is "We", which is not in the
imperative starter set. -/
theorem extract_fallback_scenario_cex :
    ¬ ("We need to create a new feature.".toList ∈
        extract_action_items
          "We need to create a new feature.\nPlease implement the login page.\nThis is just narration.".toList) := by
  decide

/-- C2 (amended): no line is classified actionable, so the fallback path
activates, but no sentence qualifies — the first alphabetic words are "We",
"Please" and "This", none of which is in the imperative starter set — so
the output is empty. -/
theorem extract_fallback_scenario :
    linePass "We need to create a new feature.\nPlease implement the login page.\nThis is just narration.".toList = [] ∧
    (looks_imperative "We need to create a new feature.".toList = false ∧
     looks_imperative "Please implement the login page.".toList = false ∧
     looks_imperative "This is just narration.".toList = false) ∧
    extract_action_items
        "We need to create a new feature.\nPlease implement the login page.\nThis is just narration.".toList = [] := by
  refine ⟨by decide, ⟨by decide, by decide, by decide⟩, by decide⟩

/-- C3 (counterexample): a line consisting only of a bullet marker and a
checkbox token yields an item with no non-whitespace character. -/
theorem extract_nonempty_items_cex :
    ¬ (∀ item ∈ extract_action_items "- [ ]".toList,
        ∃ c ∈ item, pyIsSpace c = false) := by
  decide

/-- C3 (amended): output items can be empty after trimming — cleaning a line
that consists only of a bullet marker and a checkbox token produces the
empty string, which is kept: on input `"- [ ]"` the output is `[""]`. -/
theorem extract_empty_item_possible :
    extract_action_items "- [ ]".toList = [[]] ∧
      ∃ t : Str, ∃ item ∈ extract_action_items t, pyStrip item = [] :=
  ⟨by decide, "- [ ]".toList, [], by decide, rfl⟩

/-- C6: the deduplication step keeps exactly the first occurrence of each
lower-cased form (`keepFirstsSpec` is the specification's wording), keeps
items verbatim and in order (the result is a sublist of its input), and the
duplicate-checkbox scenario yields exactly `["task one"]`. -/
theorem dedup_spec_and_scenario :
    (∀ l : List Str, dedupGo [] l = keepFirstsSpec l ∧ (dedupGo [] l).Sublist l) ∧
      extract_action_items "- [ ] task one\n- [ ] task one".toList = ["task one".toList] := by
  constructor
  · intro l
    constructor
    · have hf : l.filter (fun y => !decide (pyLower y ∈ ([] : List Str))) = l :=
        List.filter_eq_self.mpr (by intro a _; simp)
      rw [dedupGo_eq_keepFirsts, hf]
    · exact dedupGo_sublist [] l
  · decide

/-- C6 (witness): the characterisation applied to a concrete list with a
case-insensitive duplicate. -/
theorem dedup_spec_and_scenario_witness :
    dedupGo [] ["Task".toList, "task".toList, "other".toList]
      = keepFirstsSpec ["Task".toList, "task".toList, "other".toList] :=
  (dedup_spec_and_scenario.1 ["Task".toList, "task".toList, "other".toList]).1

theorem lineBreak_isSpace {c : Char} (h : isLineBreak c = true) : pyIsSpace c = true := by
  simp only [isLineBreak, decide_eq_true_eq, List.mem_cons, List.not_mem_nil, or_false] at h
  rcases h with rfl|rfl|rfl|rfl|rfl|rfl|rfl|rfl|rfl|rfl <;> decide

theorem splitlinesGo_cons_not_crlf {c : Char} {rest acc : Str}
    (hx : ∀ rest2, c = '\r' → rest = '\n' :: rest2 → False) :
    splitlinesGo (c :: rest) acc =
      if isLineBreak c then acc.reverse :: splitlinesGo rest []
      else splitlinesGo rest (c :: acc) := by
  rw [splitlinesGo.eq_def]
  split
  · rename_i heq; cases heq
  · rename_i heq; exfalso; injection heq with h1 h2; subst h1; exact hx _ rfl (by rw [h2])
  · rename_i heq; injection heq with h1 h2; subst h1; subst h2; rfl

theorem splitlinesGo_all_space (t acc : Str)
    (h : ∀ l ∈ splitlinesGo t acc, ∀ c ∈ l, pyIsSpace c = true) :
    (∀ c ∈ t, pyIsSpace c = true) ∧ (∀ c ∈ acc, pyIsSpace c = true) := by
  induction t, acc using splitlinesGo.induct with
  | case1 acc he =>
    refine ⟨by intro c hc; simp at hc, ?_⟩
    rw [List.isEmpty_iff] at he; subst he
    intro c hc; simp at hc
  | case2 acc he =>
    refine ⟨by intro c hc; simp at hc, ?_⟩
    intro c hc
    exact h acc.reverse (by simp [splitlinesGo, he]) c (by simpa using hc)
  | case3 rest acc ih =>
    have hgo : splitlinesGo ('\r' :: '\n' :: rest) acc
        = acc.reverse :: splitlinesGo rest [] := by rw [splitlinesGo]
    rw [hgo] at h
    have hacc : ∀ c ∈ acc, pyIsSpace c = true := by
      intro c hc
      exact h acc.reverse (by simp) c (by simpa using hc)
    have hrest := ih (by intro l hl c hc; exact h l (by simp [hl]) c hc)
    refine ⟨?_, hacc⟩
    intro c hc
    rcases List.mem_cons.mp hc with rfl | hc1
    · decide
    · rcases List.mem_cons.mp hc1 with rfl | hc2
      · decide
      · exact hrest.1 c hc2
  | case4 c rest acc hx hbr ih =>
    rw [splitlinesGo_cons_not_crlf hx, if_pos hbr] at h
    have hacc : ∀ d ∈ acc, pyIsSpace d = true := by
      intro d hd
      exact h acc.reverse (by simp) d (by simpa using hd)
    have hrest := ih (by intro l hl d hd; exact h l (by simp [hl]) d hd)
    refine ⟨?_, hacc⟩
    intro d hd
    rcases List.mem_cons.mp hd with rfl | hd1
    · exact lineBreak_isSpace hbr
    · exact hrest.1 d hd1
  | case5 c rest acc hx hbr ih =>
    rw [splitlinesGo_cons_not_crlf hx, if_neg hbr] at h
    have hrest := ih h
    have hca := hrest.2
    refine ⟨?_, ?_⟩
    · intro d hd
      rcases List.mem_cons.mp hd with rfl | hd1
      · exact hca d (List.mem_cons_self _ _)
      · exact hrest.1 d hd1
    · intro d hd
      exact hca d (List.mem_cons_of_mem _ hd)

theorem blankLines_all_space {t : Str} (h : ∀ l ∈ splitlines t, pyStrip l = []) :
    ∀ c ∈ t, pyIsSpace c = true := by
  have h' : ∀ l ∈ splitlinesGo t [], ∀ c ∈ l, pyIsSpace c = true := by
    intro l hl c hc
    exact pyStrip_eq_nil_iff.mp (h l hl) c hc
  exact (splitlinesGo_all_space t [] h').1

/-- C4: on any input all of whose lines are blank (whitespace-only) — which
includes the empty string, whose line list is empty — `extract_action_items`
returns the empty list.  The embedding is a total function, so the
no-exception part of the contract holds by construction. -/
theorem extract_blank_input (t : Str)
    (h : ∀ l ∈ splitlines t, pyStrip l = []) :
    extract_action_items t = [] := by
  have hline : linePass t = [] := by
    unfold linePass
    rw [List.filterMap_eq_nil_iff]
    intro raw hraw
    simp [h raw hraw]
  have hstrip : pyStrip t = [] := pyStrip_eq_nil_iff.mpr (blankLines_all_space h)
  have hfb : fallbackPass t = [] := by
    unfold fallbackPass
    rw [hstrip]
    rfl
  simp [extract_action_items, hline, hfb, dedupGo]

/-- C4 (witness): a concrete whitespace-only input. -/
theorem extract_blank_input_witness :
    extract_action_items " \n\t\n  ".toList = [] :=
  extract_blank_input _ (by decide)

/-- C5: if the line-based pass produced at least one item, the output is the
deduplication of exactly the line-pass items — every output item comes from
the line pass and the sentence fallback contributes nothing. -/
theorem extract_line_precedence (t : Str) (h : linePass t ≠ []) :
    extract_action_items t = dedupGo [] (linePass t) ∧
      ∀ item ∈ extract_action_items t, item ∈ linePass t := by
  have hne : (linePass t).isEmpty = false := by
    cases e : linePass t
    · exact absurd e h
    · rfl
  constructor
  · simp [extract_action_items, hne]
  · intro item hi
    simp only [extract_action_items, hne, Bool.false_eq_true, if_false] at hi
    exact mem_of_mem_dedupGo hi

/-- C5 (witness): an input with one bullet line and one narrative sentence. -/
theorem extract_line_precedence_witness :
    extract_action_items "- do it\nRest later.".toList
      = dedupGo [] (linePass "- do it\nRest later.".toList) :=
  (extract_line_precedence _ (by decide)).1

theorem pyStrip_cleanLine (x : Str) : pyStrip (cleanLine x) = cleanLine x := by
  simp only [cleanLine]
  exact pyStrip_idem _

/-- C10: every item returned by `extract_action_items` equals its own trim —
line-path items end in a strip and fallback sentences are stripped before
the imperative test. -/
theorem extract_items_trimmed (t : Str) :
    ∀ item ∈ extract_action_items t, pyStrip item = item := by
  intro item hi
  simp only [extract_action_items] at hi
  have hmem := mem_of_mem_dedupGo hi
  by_cases hl : (linePass t).isEmpty
  · rw [if_pos hl] at hmem
    obtain ⟨sentence, hs, he⟩ := List.mem_filterMap.mp hmem
    by_cases h1 : (pyStrip sentence).isEmpty
    · simp [h1] at he
    · by_cases h2 : looks_imperative (pyStrip sentence)
      · simp [h1, h2] at he
        rw [← he]
        exact pyStrip_idem _
      · simp [h1, h2] at he
  · rw [if_neg hl] at hmem
    obtain ⟨raw, hr, he⟩ := List.mem_filterMap.mp hmem
    by_cases h1 : (pyStrip raw).isEmpty
    · simp [h1] at he
    · by_cases h2 : is_action_line (pyStrip raw)
      · simp [h1, h2] at he
        rw [← he]
        exact pyStrip_cleanLine _
      · simp [h1, h2] at he

/-- C10 (witness): the theorem applied to the checkbox scenario input and
its extracted item. -/
theorem extract_items_trimmed_witness :
    pyStrip "task one".toList = "task one".toList :=
  extract_items_trimmed "- [ ] task one".toList "task one".toList (by decide)

/-- C7: cleaning a classified line removes, in order, the bullet/numbering
match, a literal leading `"[ ]"`, and a literal leading `"[todo]"`, with a
trim after each step; each removal is a no-op when the prefix is absent, and
the bracket-token removals are case-sensitive on the original-case line, so
a leading `"[TODO]"` survives while `"[todo]"` is removed. -/
theorem cleanLine_pipeline (line : Str) :
    cleanLine line
      = pyStrip (pyRemoveLeading "[todo]".toList
          (pyStrip (pyRemoveLeading "[ ]".toList (pyStrip (bulletSub line))))) ∧
    (∀ p s : Str, ¬ p.isPrefixOf s = true → pyRemoveLeading p s = s) ∧
    (∀ s : Str, matchBulletRest s = none → bulletSub s = s) ∧
    cleanLine "- [TODO] Fix the bug".toList = "[TODO] Fix the bug".toList ∧
    cleanLine "- [todo] Fix the bug".toList = "Fix the bug".toList := by
  refine ⟨rfl, ?_, ?_, by decide, by decide⟩
  · intro p s hp
    simp [pyRemoveLeading, hp]
  · intro s hm
    simp [bulletSub, hm]

/-- C7 (witness): the no-op property applied at a concrete non-matching
input. -/
theorem cleanLine_pipeline_witness :
    pyRemoveLeading "[todo]".toList "[TODO] x".toList = "[TODO] x".toList :=
  (cleanLine_pipeline []).2.1 _ _ (by decide)

theorem pyLowerChar_pattern (c : Char) :
    pyIsSpace (pyLowerChar c) = pyIsSpace c ∧
    pyIsDigit (pyLowerChar c) = pyIsDigit c ∧
    decide (pyLowerChar c = '.') = decide (c = '.') := by
  by_cases h1 : 65 ≤ c.toNat ∧ c.toNat ≤ 90
  · obtain ⟨ha, hb⟩ := h1
    have hc : c = Char.ofNat c.toNat := (Char.ofNat_toNat c).symm
    set n := c.toNat with hn
    interval_cases n <;> (subst hc; decide)
  · by_cases h2 : 192 ≤ c.toNat ∧ c.toNat ≤ 222 ∧ c.toNat ≠ 215
    · obtain ⟨ha, hb, hne⟩ := h2
      have hc : c = Char.ofNat c.toNat := (Char.ofNat_toNat c).symm
      set n := c.toNat with hn
      interval_cases n <;> first
        | exact absurd rfl hne
        | (subst hc; decide)
    · have hid : pyLowerChar c = c := by
        unfold pyLowerChar
        rw [if_neg h1, if_neg h2]
      rw [hid]
      exact ⟨rfl, rfl, rfl⟩

theorem pyLowerChar_class_fixed {c : Char} (h : c ∈ bulletClassChars) :
    pyLowerChar c = c := by
  simp only [bulletClassChars, List.mem_cons, List.not_mem_nil, or_false] at h
  rcases h with rfl|rfl|rfl|rfl|rfl <;> decide

theorem isEmpty_map (f : Char → Char) (l : Str) : (l.map f).isEmpty = l.isEmpty := by
  cases l <;> rfl

theorem pyIsSpace_comp_lower : (pyIsSpace ∘ pyLowerChar) = pyIsSpace :=
  funext (fun c => (pyLowerChar_pattern c).1)

theorem pyIsDigit_comp_lower : (pyIsDigit ∘ pyLowerChar) = pyIsDigit :=
  funext (fun c => (pyLowerChar_pattern c).2.1)

theorem startsGlyphWs_lower_mono {s : Str}
    (h : startsGlyphWs bulletClassChars s = true) :
    startsGlyphWs bulletClassChars (pyLower s) = true := by
  cases s with
  | nil => simp [startsGlyphWs] at h
  | cons c rest =>
    simp only [startsGlyphWs, Bool.and_eq_true, decide_eq_true_eq] at h
    obtain ⟨hc, hw⟩ := h
    simp only [pyLower, List.map_cons, startsGlyphWs, Bool.and_eq_true,
      decide_eq_true_eq]
    constructor
    · rw [pyLowerChar_class_fixed hc]; exact hc
    · rw [List.takeWhile_map, pyIsSpace_comp_lower, isEmpty_map]; exact hw

theorem startsDotWs_lower (s : Str) :
    startsDotWs (pyLower s) = startsDotWs s := by
  cases s with
  | nil => rfl
  | cons c rest =>
    simp only [pyLower, List.map_cons, startsDotWs]
    rw [(pyLowerChar_pattern c).2.2, List.takeWhile_map, pyIsSpace_comp_lower,
      isEmpty_map]

theorem startsNumDotWs_lower (s : Str) :
    startsNumDotWs (pyLower s) = startsNumDotWs s := by
  simp only [startsNumDotWs, pyLower]
  rw [List.takeWhile_map, pyIsDigit_comp_lower, isEmpty_map, List.length_map,
    ← List.map_drop]
  rw [show ((s.drop (s.takeWhile pyIsDigit).length).map pyLowerChar)
      = pyLower (s.drop (s.takeWhile pyIsDigit).length) from rfl]
  rw [startsDotWs_lower]

theorem beginsBulletPattern_lower_mono {s : Str}
    (h : beginsBulletPattern bulletClassChars s = true) :
    beginsBulletPattern bulletClassChars (pyLower s) = true := by
  unfold beginsBulletPattern at h ⊢
  rw [show (pyLower s).dropWhile pyIsSpace = pyLower (s.dropWhile pyIsSpace) by
    simp only [pyLower]; rw [List.dropWhile_map, pyIsSpace_comp_lower]]
  rw [Bool.or_eq_true] at h ⊢
  rcases h with h | h
  · exact Or.inl (startsGlyphWs_lower_mono h)
  · exact Or.inr (by rw [startsNumDotWs_lower]; exact h)

theorem matchWsPlus_isSome (s : Str) :
    (matchWsPlus s).isSome = !(s.takeWhile pyIsSpace).isEmpty := by
  cases s with
  | nil => rfl
  | cons c rest =>
    by_cases h : pyIsSpace c
    · simp [matchWsPlus, List.takeWhile_cons, h]
    · simp [matchWsPlus, List.takeWhile_cons, h]

theorem matchDotWs_isSome (s : Str) :
    (matchDotWs s).isSome = startsDotWs s := by
  cases s with
  | nil => rfl
  | cons c rest =>
    by_cases h : c = '.'
    · simp [matchDotWs, startsDotWs, h, matchWsPlus_isSome]
    · simp [matchDotWs, startsDotWs, h]

theorem matchDigitsDot_isSome (s : Str) :
    (matchDigitsDot s).isSome = startsNumDotWs s := by
  simp only [matchDigitsDot, startsNumDotWs]
  by_cases h : (s.takeWhile pyIsDigit).isEmpty
  · simp [h]
  · simp [h, matchDotWs_isSome]

theorem matchBulletRest_isSome (s : Str) :
    (matchBulletRest s).isSome = beginsBulletPattern bulletClassChars s := by
  unfold matchBulletRest beginsBulletPattern
  cases e : s.dropWhile pyIsSpace with
  | nil => rfl
  | cons c rest =>
    by_cases hc : c ∈ bulletClassChars
    · simp only [decide_eq_true hc, if_true]
      cases m : matchWsPlus rest with
      | some r =>
        have h1 : (!(rest.takeWhile pyIsSpace).isEmpty) = true := by
          rw [← matchWsPlus_isSome, m]; rfl
        show true = (startsGlyphWs bulletClassChars (c :: rest) || startsNumDotWs (c :: rest))
        simp only [startsGlyphWs, decide_eq_true hc, h1, Bool.true_and, Bool.true_or]
      | none =>
        have h1 : (!(rest.takeWhile pyIsSpace).isEmpty) = false := by
          rw [← matchWsPlus_isSome, m]; rfl
        show (matchDigitsDot (c :: rest)).isSome
            = (startsGlyphWs bulletClassChars (c :: rest) || startsNumDotWs (c :: rest))
        rw [matchDigitsDot_isSome]
        simp only [startsGlyphWs, decide_eq_true hc, h1, Bool.and_false, Bool.false_or]
    · simp only [decide_eq_false hc, Bool.false_eq_true, if_false]
      show (matchDigitsDot (c :: rest)).isSome
          = (startsGlyphWs bulletClassChars (c :: rest) || startsNumDotWs (c :: rest))
      rw [matchDigitsDot_isSome]
      simp only [startsGlyphWs, decide_eq_false hc, Bool.false_and, Bool.false_or]

/-- C8 (counterexample): a trimmed line beginning with the actual bullet
glyph followed by whitespace satisfies the claimed pattern but is not
classified actionable — the source's character class holds the mojibake
bytes of the glyph, not the glyph itself. -/
theorem bullet_glyph_cex :
    beginsBulletPattern specBulletGlyphs (pyStrip "• Buy milk".toList) = true ∧
      is_action_line "• Buy milk".toList = false := ⟨by decide, by decide⟩

/-- C8 (amended): a line is classified actionable whenever it begins (after
leading whitespace) with `-`, `*`, one of the literal characters `â`, `€`,
`¢` (the UTF-8 mojibake of the bullet glyph as the interpreter reads the
source bytes), or a decimal digit string followed by a period, in each case
followed by at least one whitespace character.  The check is evaluated on
the lower-cased line, and lower-casing fixes every pattern character, so it
can only create additional matches, never destroy one: a line beginning
with `Â` — which lowers to `â`, a member of the mojibake class — is also
classified, although its original-case form does not match the pattern. -/
theorem bullet_pattern_actionable :
    (∀ line : Str, beginsBulletPattern bulletClassChars (pyStrip line) = true →
        is_action_line line = true) ∧
    (is_action_line "Â Buy milk".toList = true ∧
      beginsBulletPattern bulletClassChars (pyStrip "Â Buy milk".toList) = false) := by
  constructor
  · intro line h
    have h1 : beginsBulletPattern bulletClassChars (pyLower (pyStrip line)) = true :=
      beginsBulletPattern_lower_mono h
    have h2 : (matchBulletRest (pyLower (pyStrip line))).isSome = true := by
      rw [matchBulletRest_isSome]; exact h1
    have h3 : (pyLower (pyStrip line)).isEmpty = false := by
      cases e : pyLower (pyStrip line)
      · rw [e] at h2; exact absurd h2 (by decide)
      · rfl
    simp only [is_action_line, h3, Bool.false_eq_true, if_false, h2, if_true]
  · exact ⟨by decide, by decide⟩

/-- C8 (witness): the amended classification applied to a concrete dash
bullet line. -/
theorem bullet_pattern_actionable_witness :
    is_action_line "- do it".toList = true :=
  bullet_pattern_actionable.1 _ (by decide)

/-- C9: the LLM path returns the empty list on blank input for every oracle
behaviour (so the model is never consulted), returns the empty list when the
chat call raises or the response carries no string content, degrades to the
plain-text line split capped at 10 items when JSON parsing fails, and — being
a total function — never raises to its caller. -/
theorem extract_llm_contract :
    (∀ (chatResult : Except Unit LlmResponse) (jsonLoads : Str → Except Unit PyVal)
        (text : Str), pyStrip text = [] →
        extract_action_items_llm chatResult jsonLoads text = []) ∧
    (∀ (jsonLoads : Str → Except Unit PyVal) (text : Str),
        extract_action_items_llm (.error ()) jsonLoads text = []) ∧
    (∀ (jsonLoads : Str → Except Unit PyVal) (text : Str),
        extract_action_items_llm (.ok ⟨⟨none⟩⟩) jsonLoads text = []) ∧
    (∀ content : Str, (llmFallbackSplit content).length ≤ 10) ∧
    (∀ (jsonLoads : Str → Except Unit PyVal) (text : Str) (c0 : Str),
        (∀ s, jsonLoads s = .error ()) →
        extract_action_items_llm (.ok ⟨⟨some c0⟩⟩) jsonLoads text = [] ∨
        extract_action_items_llm (.ok ⟨⟨some c0⟩⟩) jsonLoads text = llmFallbackSplit c0) := by
  refine ⟨?_, ?_, ?_, ?_, ?_⟩
  · intro ch jl text h
    simp [extract_action_items_llm, h]
  · intro jl text
    by_cases h : (pyStrip text).isEmpty <;> simp [extract_action_items_llm, h]
  · intro jl text
    by_cases h : (pyStrip text).isEmpty <;> simp [extract_action_items_llm, h]
  · intro content
    simp only [llmFallbackSplit]
    exact List.length_take_le _ _
  · intro jl text c0 hj
    by_cases h : (pyStrip text).isEmpty
    · left
      simp [extract_action_items_llm, h]
    · right
      simp only [extract_action_items_llm, h, Bool.false_eq_true, if_false]
      rw [hj]

/-- C9 (witness): each component applied at concrete oracles and inputs. -/
theorem extract_llm_contract_witness :
    extract_action_items_llm (.ok ⟨⟨some "x".toList⟩⟩) (fun _ => .error ()) "".toList = [] ∧
    extract_action_items_llm (.error ()) (fun _ => .error ()) "hi".toList = [] ∧
    extract_action_items_llm (.ok ⟨⟨none⟩⟩) (fun _ => .error ()) "hi".toList = [] ∧
    (llmFallbackSplit "a\nb".toList).length ≤ 10 ∧
    (extract_action_items_llm (.ok ⟨⟨some "a\nb".toList⟩⟩) (fun _ => .error ()) "hi".toList = [] ∨
     extract_action_items_llm (.ok ⟨⟨some "a\nb".toList⟩⟩) (fun _ => .error ()) "hi".toList
        = llmFallbackSplit "a\nb".toList) :=
  ⟨extract_llm_contract.1 _ _ _ (by decide),
   extract_llm_contract.2.1 _ _,
   extract_llm_contract.2.2.1 _ _,
   extract_llm_contract.2.2.2.1 _,
   extract_llm_contract.2.2.2.2 _ _ _ (fun s => rfl)⟩
